import Mathlib

/-!
Shallow embedding of `pallets/subtensor/src/root.rs` (root-network emission,
weight-setting, registration and subnetwork-creation logic) together with
verification of the specification's claims about it.

Conventions:
* machine integers (`u16`, `u64`) are represented as `Nat`; where the source's
  arithmetic can wrap, the wrap is written explicitly (`% 65536`, `% 2 ^ 64`);
* storage double maps restricted to the root netuid are association lists
  keyed by `Nat`;
* fallible code (Rust panics, `ensure!` failures) returns `Option` / `Except`;
* code of the repository that lives outside `root.rs` (the fixed-point math
  module, storage helper functions, the transactional dispatch layer) is
  modelled from the spec; each such definition carries a doc comment starting
  with `Modelled from the spec:`.
-/

namespace Subtensor

/-- The `Error<T>` variants raised by the operations in `root.rs`. -/
inductive RootErr where
  | WeightVecNotEqualSize
  | TooManyUids
  | NotRegistered
  | SettingWeightsTooFast
  | DuplicateUids
  | InvalidUid
  | NetworkDoesNotExist
  | TooManyRegistrationsThisBlock
  | TooManyRegistrationsThisInterval
  | AlreadyRegistered
  | StakeTooLowForRoot
  | TxRateLimitExceeded
  | CouldNotConvertToBalance
  | NotEnoughBalanceToStake
  | BalanceWithdrawalError
  deriving DecidableEq

/-- Insert-or-overwrite into an association list keyed by `Nat`; this is the
behaviour of a storage-map `insert` (one entry per key). -/
def insertAssoc {α : Type} : List (Nat × α) → Nat → α → List (Nat × α)
  | [], k, v => [(k, v)]
  | (k', v') :: rest, k, v =>
    if k' = k then (k, v) :: rest else (k', v') :: insertAssoc rest k v

/-- Storage-map `get`: the first entry with the given key. -/
def lookupAssoc {α : Type} (m : List (Nat × α)) (k : Nat) : Option α :=
  (m.find? (fun p => p.1 == k)).map (fun p => p.2)

/-- `get_root_netuid` (root.rs line 33): the root network has the fixed uid 0. -/
def get_root_netuid : Nat := 0

/-- `get_root_tempo` (root.rs line 44): the root tempo is the constant 100. -/
def get_root_tempo : Nat := 100

/-- `contains_invalid_root_uids` (root.rs lines 80-89): scans the list and
answers true as soon as some uid exceeds the total number of subnets or equals
the root netuid 0. -/
def contains_invalid_root_uids (totalSubnets : Nat) (uids : List Nat) : Bool :=
  uids.any (fun uid => decide (totalSubnets < uid) || decide (uid = get_root_netuid))

/-- Modelled from the spec: `uids_match_values` (outside root.rs) checks that
the uid list and the value list have equal length (spec 4.3 step 1). -/
def uids_match_values (uids values : List Nat) : Bool :=
  uids.length == values.length

/-- Modelled from the spec: `has_duplicate_uids` (outside root.rs) detects a
duplicate entry in the uid list (spec 4.3 step 6). -/
def has_duplicate_uids : List Nat → Bool
  | [] => false
  | u :: rest => rest.contains u || has_duplicate_uids rest

/-- Modelled from the spec: `vec_u16_max_upscale_to_u16` (FixedPointMath,
spec 4.1) rescales the values so the maximum maps to 65535, preserving
proportions; an all-zero input stays all-zero. -/
def vec_u16_max_upscale_to_u16 (values : List Nat) : List Nat :=
  let mx := values.foldr Nat.max 0
  if mx = 0 then values else values.map (fun v => v * 65535 / mx)

/-- The persisted state read and written by `set_root_weights`, restricted to
the root netuid 0: the subnet counter, the uid registry (`Uids`), the
per-slot last-update blocks, the rate-limit parameter, the current block and
the sparse weight store (`Weights`). -/
structure WeightsState where
  totalNetworks : Nat
  uidsMap : List (Nat × Nat)
  lastUpdate : List (Nat × Nat)
  weightsRateLimit : Nat
  currentBlock : Nat
  weightsStore : List (Nat × List (Nat × Nat))
  deriving DecidableEq

/-- Modelled from the spec: `is_hotkey_registered_on_network` (outside
root.rs) checks membership of the hotkey in the root uid registry. -/
def is_hotkey_registered_on_network (s : WeightsState) (hotkey : Nat) : Bool :=
  (lookupAssoc s.uidsMap hotkey).isSome

/-- Modelled from the spec: `get_uid_for_net_and_hotkey` (outside root.rs)
resolves the caller's slot index from the uid registry. -/
def get_uid_for_net_and_hotkey (s : WeightsState) (hotkey : Nat) : Option Nat :=
  lookupAssoc s.uidsMap hotkey

/-- Modelled from the spec: `check_rate_limit` (outside root.rs) passes iff at
least the configured minimum number of blocks elapsed since the slot's last
weight update (spec 4.3 step 5). -/
def check_rate_limit (s : WeightsState) (neuronUid : Nat) : Bool :=
  decide (s.weightsRateLimit ≤ s.currentBlock - (lookupAssoc s.lastUpdate neuronUid).getD 0)

/-- `set_root_weights` (root.rs lines 239-325): the ordered validation
pipeline followed by the commit of the max-upscaled, zipped weight row and the
last-update block.  All `ensure!` checks precede every storage write, exactly
as in the source. -/
def set_root_weights (s : WeightsState) (hotkey : Nat) (uids values : List Nat) :
    Except RootErr WeightsState :=
  if uids_match_values uids values = false then .error .WeightVecNotEqualSize
  else if decide (uids.length ≤ s.totalNetworks) = false then .error .TooManyUids
  else if is_hotkey_registered_on_network s hotkey = false then .error .NotRegistered
  else
    match get_uid_for_net_and_hotkey s hotkey with
    | none => .error .NotRegistered
    | some neuronUid =>
      if check_rate_limit s neuronUid = false then .error .SettingWeightsTooFast
      else if has_duplicate_uids uids then .error .DuplicateUids
      else if contains_invalid_root_uids s.totalNetworks uids then .error .InvalidUid
      else
        let maxUpscaled := vec_u16_max_upscale_to_u16 values
        let zipped := uids.zip maxUpscaled
        .ok { s with
          weightsStore := insertAssoc s.weightsStore neuronUid zipped
          lastUpdate := insertAssoc s.lastUpdate neuronUid s.currentBlock }

/-- Modelled from the spec: the transactional dispatch layer (spec section 5)
commits an operation's storage writes only when it succeeds; a rejected
request leaves the persisted state untouched. -/
def run_set_root_weights (s : WeightsState) (hotkey : Nat) (uids values : List Nat) :
    Except RootErr Unit × WeightsState :=
  match set_root_weights s hotkey uids values with
  | .ok s' => (.ok (), s')
  | .error e => (.error e, s)

/-- The product `target_registrations_per_interval * 3` of root.rs line 366,
computed in 16-bit unsigned arithmetic: the wrap past 65535 is explicit. -/
def interval_limit_u16 (target : Nat) : Nat :=
  target * 3 % 65536

/-- The per-interval registration rate-limit check of `do_root_register`
(root.rs lines 363-368): the interval counter must be strictly below thrice
the target, with the multiplication performed in u16. -/
def interval_check (counter target : Nat) : Bool :=
  decide (counter < interval_limit_u16 target)

/-- The netuid-selection loop of `user_add_network` (root.rs lines 490-496).
`next_available_netuid` is a u16 counter incremented before each existence
test; the increment past 65535 overflows u16, so the loop cannot terminate
normally at that point — that case is `none`.  `fuel` bounds the recursion;
fuel 65536 starting from 0 is enough to reach either a free id or the
overflow. -/
def next_available_netuid (subnetExists : Nat → Bool) : Nat → Nat → Option Nat
  | 0, _ => none
  | fuel + 1, cur =>
    if 65535 < cur + 1 then none
    else if subnetExists (cur + 1) = false then some (cur + 1)
    else next_available_netuid subnetExists fuel (cur + 1)

/-- The persisted state read and written by `user_add_network`: the block
counters and burn bookkeeping, the caller's balance view, the subnetwork
existence list (`networks`, modelling the per-netuid existence map), the u16
subnet counter and cap, the externally chosen prune victim
(`get_subnet_to_prune`), the per-subnet registry maps and the emitted
`NetworkAdded` events (netuid per event).  `withdrawOk` is the external
balance collaborator's verdict on the actual withdrawal, which per spec 4.5
step 6 can fail independently of the sufficiency pre-check. -/
structure NetState where
  currentBlock : Nat
  networkLastBurnBlock : Nat
  networkLastBurn : Nat
  burnCost : Nat
  canConvert : Bool
  balance : Nat
  withdrawOk : Bool
  networks : List Nat
  totalNetworks : Nat
  subnetLimit : Nat
  subnetToPrune : Nat
  lockedBalance : List (Nat × Nat)
  registeredAt : List (Nat × Nat)
  subnetOwner : List (Nat × Nat)
  networkLastRegistered : Nat
  events : List Nat
  deriving DecidableEq

/-- Modelled from the spec: `remove_network` (outside root.rs) destroys the
pruned subnetwork, freeing its id for reuse (spec 4.5 step 5); the u16 subnet
counter drops by one. -/
def remove_network (s : NetState) (nid : Nat) : NetState :=
  { s with networks := s.networks.erase nid, totalNetworks := s.totalNetworks - 1 }

/-- `init_new_network_with_params` (root.rs lines 533-546) initializes the new
subnetwork; the underlying `init_new_network` (outside root.rs) is modelled
from the spec as marking the id existing and bumping the u16 subnet counter.
The fixed parameter setters of lines 535-545 write per-subnet scalars that no
claim mentions, so they are not carried in the state. -/
def init_new_network_with_params (nid : Nat) (s : NetState) : NetState :=
  { s with
    networks := if s.networks.contains nid then s.networks else nid :: s.networks
    totalNetworks := (s.totalNetworks + 1) % 65536 }

/-- `user_add_network` (root.rs lines 459-530) as a state transformer.  The
returned state is the storage state at the point of return: on an error it
still carries any write performed before the failing check (the transactional
layer reverts those, see `run_add_network`).  `none` models the netuid loop
failing to terminate.  The rate-limit subtraction at line 467 is u64; `Nat`
truncated subtraction agrees with it whenever the last burn block does not
exceed the current block. -/
def user_add_network (coldkey : Nat) (s : NetState) :
    Option (Except RootErr Unit × NetState) :=
  if decide (1 ≤ s.currentBlock - s.networkLastBurnBlock) = false then
    some (.error .TxRateLimitExceeded, s)
  else if s.canConvert = false then some (.error .CouldNotConvertToBalance, s)
  else if decide (s.burnCost ≤ s.balance) = false then
    some (.error .NotEnoughBalanceToStake, s)
  else
    let sel : Option (Nat × NetState) :=
      if s.totalNetworks < s.subnetLimit then
        (next_available_netuid (fun n => s.networks.contains n) 65536 0).map
          (fun nid => (nid, s))
      else some (s.subnetToPrune, remove_network s s.subnetToPrune)
    sel.bind (fun p =>
      if p.2.withdrawOk = false then some (.error .BalanceWithdrawalError, p.2)
      else
        let s2 := { p.2 with balance := p.2.balance - s.burnCost }
        let s3 := { s2 with lockedBalance := insertAssoc s2.lockedBalance p.1 s.burnCost }
        let s4 := init_new_network_with_params p.1 s3
        some (.ok (), { s4 with
          networkLastRegistered := s.currentBlock
          registeredAt := insertAssoc s4.registeredAt p.1 s.currentBlock
          subnetOwner := insertAssoc s4.subnetOwner p.1 coldkey
          networkLastBurn := s.burnCost
          events := p.1 :: s4.events }))

/-- Modelled from the spec: transactional all-or-nothing commit (spec section
5) around `user_add_network` — storage writes apply only when the call
succeeds, a rejected request leaves no observable trace. -/
def run_add_network (coldkey : Nat) (s : NetState) :
    Option (Except RootErr Unit × NetState) :=
  (user_add_network coldkey s).map (fun r =>
    match r with
    | (.ok u, s') => (.ok u, s')
    | (.error e, _) => (.error e, s))

/-- Concrete at-capacity state whose balance withdrawal fails. -/
def netStateFullFail : NetState where
  currentBlock := 10
  networkLastBurnBlock := 5
  networkLastBurn := 0
  burnCost := 100
  canConvert := true
  balance := 500
  withdrawOk := false
  networks := [0, 1]
  totalNetworks := 2
  subnetLimit := 2
  subnetToPrune := 1
  lockedBalance := []
  registeredAt := []
  subnetOwner := []
  networkLastRegistered := 0
  events := []

/-- Concrete below-cap state: subnets 0 and 1 exist, the cap is 4. -/
def netStateBelowCap : NetState where
  currentBlock := 10
  networkLastBurnBlock := 5
  networkLastBurn := 0
  burnCost := 100
  canConvert := true
  balance := 500
  withdrawOk := true
  networks := [0, 1]
  totalNetworks := 2
  subnetLimit := 4
  subnetToPrune := 1
  lockedBalance := []
  registeredAt := []
  subnetOwner := []
  networkLastRegistered := 0
  events := []

/-- Concrete state for the C3 witness: two subnetworks exist beside the root,
the caller's hotkey 5 resolves to slot 0 and the rate limit is satisfied. -/
def weightsState0 : WeightsState where
  totalNetworks := 2
  uidsMap := [(5, 0)]
  lastUpdate := [(0, 0)]
  weightsRateLimit := 1
  currentBlock := 10
  weightsStore := []

/-- `u64::MAX`, the initial value of the replacement scan's running minimum. -/
def u64MAX : Nat := 2 ^ 64 - 1

/-- One step of the replacement scan of `do_root_register` (root.rs lines
404-414): a slot updates the running minimum only when its stake is strictly
lower, so ties keep the earlier slot. -/
def find_lowest_step (stakeOf : Nat → Nat) (acc : Nat × Nat) (p : Nat × Nat) : Nat × Nat :=
  if stakeOf p.2 < acc.1 then (stakeOf p.2, p.1) else acc

/-- The full replacement scan: fold over the root `Keys` entries in iteration
order starting from `(u64::MAX, 0)`. -/
def find_lowest (stakeOf : Nat → Nat) (keys : List (Nat × Nat)) : Nat × Nat :=
  keys.foldl (find_lowest_step stakeOf) (u64MAX, 0)

/-- The minimum of the slots' stakes capped at an initial bound `a`. -/
def minWith (stakeOf : Nat → Nat) (keys : List (Nat × Nat)) (a : Nat) : Nat :=
  keys.foldr (fun p m => Nat.min (stakeOf p.2) m) a

/-- The minimum stake among the scanned slots (capped at `u64::MAX`, the
scan's initial value). -/
def minStake (stakeOf : Nat → Nat) (keys : List (Nat × Nat)) : Nat :=
  minWith stakeOf keys u64MAX

/-- The persisted state read and written by `do_root_register`: root-network
existence, the current block, the per-block and per-interval registration
counters with their limits, the root `Keys` entries `(uid, hotkey)` in
iteration order, the slot capacity, the per-slot registration blocks, and the
external StakeLedger view `stakeOf` (hotkey to total stake). -/
structure RegState where
  rootExists : Bool
  currentBlock : Nat
  regsThisBlock : Nat
  maxRegsPerBlock : Nat
  regsThisInterval : Nat
  targetRegsPerInterval : Nat
  keys : List (Nat × Nat)
  maxAllowedUids : Nat
  blockAtRegistration : List (Nat × Nat)
  stakeOf : Nat → Nat

/-- Modelled from the spec: `append_neuron` (outside root.rs) grows the root
network by one slot at index = current count, binding the hotkey and recording
the registration block (spec 4.4 step 7). -/
def append_neuron (s : RegState) (hotkey : Nat) : RegState :=
  { s with
    keys := s.keys ++ [(s.keys.length, hotkey)]
    blockAtRegistration := insertAssoc s.blockAtRegistration s.keys.length s.currentBlock }

/-- Modelled from the spec: `replace_neuron` (outside root.rs) rebinds the
given slot to the new hotkey and refreshes its registration block, leaving
every other slot untouched (spec 4.4 step 7). -/
def replace_neuron (s : RegState) (uid hotkey : Nat) : RegState :=
  { s with
    keys := s.keys.map (fun q => if q.1 = uid then (q.1, hotkey) else q)
    blockAtRegistration := insertAssoc s.blockAtRegistration uid s.currentBlock }

/-- `do_root_register` (root.rs lines 339-444): existence, per-block limit,
per-interval limit (u16 triple), duplicate-hotkey and capacity checks, then
either append (below capacity) or the lowest-stake replacement scan, and
finally the wrap-around u16 increments of both registration counters. -/
def do_root_register (s : RegState) (hotkey : Nat) : Except RootErr RegState :=
  if s.rootExists = false then .error .NetworkDoesNotExist
  else if decide (s.regsThisBlock < s.maxRegsPerBlock) = false then
    .error .TooManyRegistrationsThisBlock
  else if interval_check s.regsThisInterval s.targetRegsPerInterval = false then
    .error .TooManyRegistrationsThisInterval
  else if s.keys.any (fun p => p.2 == hotkey) then .error .AlreadyRegistered
  else if s.maxAllowedUids = 0 then .error .NetworkDoesNotExist
  else
    (if s.keys.length < s.maxAllowedUids then
      Except.ok (append_neuron s hotkey)
    else if decide ((find_lowest s.stakeOf s.keys).1 < s.stakeOf hotkey) = false then
      Except.error .StakeTooLowForRoot
    else
      Except.ok (replace_neuron s (find_lowest s.stakeOf s.keys).2 hotkey)).map
      (fun s' => { s' with
        regsThisInterval := (s'.regsThisInterval + 1) % 65536
        regsThisBlock := (s'.regsThisBlock + 1) % 65536 })

/-- Concrete full root network for the C6 witness: three slots with stakes
40, 20, 20 (minimum 20 first reached at slot 1), capacity 3. -/
def regStateFull : RegState where
  rootExists := true
  currentBlock := 50
  regsThisBlock := 0
  maxRegsPerBlock := 3
  regsThisInterval := 0
  targetRegsPerInterval := 1
  keys := [(0, 10), (1, 11), (2, 12)]
  maxAllowedUids := 3
  blockAtRegistration := [(0, 1), (1, 2), (2, 3)]
  stakeOf := fun h =>
    if h = 10 then 40 else if h = 11 then 20 else if h = 12 then 20 else
    if h = 99 then 30 else 0

/-- Modelled from the spec: `I32F32::from_num` on a nonnegative integer —
fixed-point raw values carry 32 fraction bits, so the raw value is `n * 2^32`
(FixedPointMath, spec 4.1; every quantity in the root epoch is nonnegative,
so raw values are `Nat`). -/
def fp32_from_num (n : Nat) : Nat := n * 2 ^ 32

/-- Modelled from the spec: `I64F64::from_num` — 64 fraction bits. -/
def fp64_from_num (n : Nat) : Nat := n * 2 ^ 64

/-- Modelled from the spec: narrowing conversion `I64F64` to `I32F32`
discards the low 32 fraction bits (truncating downcast, spec 4.1). -/
def fixed64_to_fixed32 (x : Nat) : Nat := x / 2 ^ 32

/-- Modelled from the spec: widening conversion `I32F32` to `I64F64` is the
lossless upcast (spec 4.1). -/
def fixed32_to_fixed64 (x : Nat) : Nat := x * 2 ^ 32

/-- Modelled from the spec: `I64F64` to `u64` conversion truncates the
fraction, keeping the integer part. -/
def fixed64_to_u64 (x : Nat) : Nat := x / 2 ^ 64

/-- Modelled from the spec: `I32F32` multiplication — the raw product carries
64 fraction bits and is truncated back to 32. -/
def fp32_mul (a b : Nat) : Nat := a * b / 2 ^ 32

/-- Modelled from the spec: `inplace_normalize_64` scales a nonnegative
`I64F64` vector so it sums to 1 (raw sum `2^64`), leaving an all-zero vector
unchanged (spec 4.1 normalize). -/
def inplace_normalize_64 (v : List Nat) : List Nat :=
  let s := v.foldr (fun x acc => x + acc) 0
  if s = 0 then v else v.map (fun x => x * 2 ^ 64 / s)

/-- Modelled from the spec: elementwise `I64F64` to `I32F32` narrowing. -/
def vec_fixed64_to_fixed32 (v : List Nat) : List Nat := v.map fixed64_to_fixed32

/-- Modelled from the spec: elementwise `I32F32` to `I64F64` widening. -/
def vec_fixed32_to_fixed64 (v : List Nat) : List Nat := v.map fixed32_to_fixed64

/-- Modelled from the spec: elementwise `I64F64` to `u64` truncation. -/
def vec_fixed64_to_u64 (v : List Nat) : List Nat := v.map fixed64_to_u64

/-- Modelled from the spec: `matmul` — `rank[j] = Σ_i weights[i][j] * stake[i]`
in `I32F32`, with the column count taken from the first row and an empty
matrix giving an empty result (FixedPointMath, spec 4.1). -/
def matmul (w : List (List Nat)) (stake : List Nat) : List Nat :=
  match w with
  | [] => []
  | r0 :: _ =>
    (List.range r0.length).map (fun j =>
      (w.zip stake).foldr (fun rs acc => acc + fp32_mul (rs.1.getD j 0) rs.2) 0)

/-- One fill write of `get_root_weights` (root.rs line 119):
`weights[uid_i][uid_j] = I32F32::from_num(weight_ij)` — the source indexes
without bounds checks, so an out-of-range index panics, modelled as `none`. -/
def setMat (m : List (List Nat)) (i j v : Nat) : Option (List (List Nat)) :=
  match m[i]? with
  | none => none
  | some row => if j < row.length then some (m.set i (row.set j v)) else none

/-- The inner fill loop of `get_root_weights` (root.rs lines 118-120) over
one stored row's `(target, weight)` pairs. -/
def fillRow (m : List (List Nat)) (i : Nat) (pairs : List (Nat × Nat)) :
    Option (List (List Nat)) :=
  pairs.foldl (fun acc pr => acc.bind (fun mm => setMat mm i pr.1 (fp32_from_num pr.2)))
    (some m)

/-- `get_root_weights` (root.rs lines 98-125): an `n` by `k` zero matrix
filled from the stored sparse rows; `none` models the panic of the unchecked
indexing. -/
def get_root_weights (n k : Nat) (store : List (Nat × List (Nat × Nat))) :
    Option (List (List Nat)) :=
  store.foldl (fun acc row => acc.bind (fun m => fillRow m row.1 row.2))
    (some (List.replicate n (List.replicate k (fp32_from_num 0))))

/-- The last write among a row's `(target, weight)` pairs for column `j`,
folded in order from `acc` (the fill loop overwrites left to right). -/
def rowLastWrite (pairs : List (Nat × Nat)) (j : Nat) (acc : Option Nat) : Option Nat :=
  pairs.foldl (fun a pr => if pr.1 = j then some pr.2 else a) acc

/-- The last write among all stored rows for entry `(i, j)`. -/
def lastWrite (store : List (Nat × List (Nat × Nat))) (i j : Nat) (acc : Option Nat) :
    Option Nat :=
  store.foldl (fun a row => if row.1 = i then rowLastWrite row.2 j a else a) acc

/-- The magnitude stored for slot `i` and target `j`: 0 when no pair was
stored, and the last write when several pairs target the same entry (matching
the fill order). -/
def storedWeight (store : List (Nat × List (Nat × Nat))) (i j : Nat) : Nat :=
  (lastWrite store i j none).getD 0

/-- Matrix entry access with defaults (row `i`, column `j`). -/
def entry (m : List (List Nat)) (i j : Nat) : Nat := (m.getD i []).getD j 0

/-- An `n` by `k` matrix shape. -/
def dims (m : List (List Nat)) (n k : Nat) : Prop :=
  m.length = n ∧ ∀ row ∈ m, row.length = k

/-- Concrete state for the C4 reachability part: one subnetwork
(`totalNetworks = 1`), one root slot whose hotkey 5 resolves to slot 0. -/
def weightsStateK1 : WeightsState where
  totalNetworks := 1
  uidsMap := [(5, 0)]
  lastUpdate := [(0, 0)]
  weightsRateLimit := 1
  currentBlock := 10
  weightsStore := []

/-- The state read and written by `root_epoch`: the externally computed
`blocks_until_next_epoch` value (the tempo gate, an external collaborator
fixed to tempo 100), the root size `n`, the subnet count `k`, the per-block
emission budget (`get_block_emission`), the root `Keys` entries
`(uid, hotkey)`, the StakeLedger view, the sparse weight store read by
`get_weights`, and the per-netuid committed emission values. -/
structure EpochState where
  blocksUntilNextEpoch : Nat
  n : Nat
  k : Nat
  blockEmission : Nat
  keys : List (Nat × Nat)
  stakeOf : Nat → Nat
  weightsStore : List (Nat × List (Nat × Nat))
  emissions : Nat → Nat

/-- The stake build of `root_epoch` (root.rs lines 172-175): a length-`n`
zero vector with `stake[uid] = I64F64::from_num(total stake)` written for
each root key.  (The source's indexing panics when a stored uid reaches `n`;
`List.set` ignores such writes, and the states used here keep every uid below
`n`.) -/
def build_stake (s : EpochState) : List Nat :=
  s.keys.foldl (fun v p => v.set p.1 (fp64_from_num (s.stakeOf p.2)))
    (List.replicate s.n (fp64_from_num 0))

/-- Modelled from the spec: `get_weights` (outside root.rs) materializes the
dense `n` by `k` root weight matrix from the sparse store, rows defaulting to
zero (spec 4.2 step 4), entries `I32F32::from_num` of the stored magnitude. -/
def get_weights_dense (store : List (Nat × List (Nat × Nat))) (n k : Nat) :
    List (List Nat) :=
  (List.range n).map (fun i =>
    (List.range k).map (fun j => fp32_from_num (storedWeight store i j)))

/-- `root_epoch` (root.rs lines 132-205).  The tempo gate returns immediately
while `blocks_until_next_epoch > 0`; otherwise the stake vector is built and
normalized, narrowed to `I32F32`, multiplied against the dense weight matrix,
the ranks widened and normalized, truncated to `u64`, and committed as the
per-subnet emissions for netuids `0..k-1`.  Note that `get_block_emission`
(line 157, `blockEmission` here) is read but never enters the computation:
the normalized `I64F64` fractions are passed to `vec_fixed64_to_u64`
directly, exactly as in the source. -/
def root_epoch (s : EpochState) : EpochState :=
  if 0 < s.blocksUntilNextEpoch then s
  else
    let stake_i64 := inplace_normalize_64 (build_stake s)
    let stake_i32 := vec_fixed64_to_fixed32 stake_i64
    let weights_i32 := get_weights_dense s.weightsStore s.n s.k
    let ranks_i32 := matmul weights_i32 stake_i32
    let emission_i62 := inplace_normalize_64 (vec_fixed32_to_fixed64 ranks_i32)
    let emission_u64 := vec_fixed64_to_u64 emission_i62
    { s with emissions := fun nid => emission_u64.getD nid (s.emissions nid) }

/-- The concrete example state of the spec (section 8): two root slots with
stakes 30 and 70, slot 0 giving full weight to subnet 1 and slot 1 full
weight to subnet 2, three netuids in total (root 0 plus subnets 1 and 2), a
block emission budget of 1000, with the tempo gate passing. -/
def exampleEpochState : EpochState where
  blocksUntilNextEpoch := 0
  n := 2
  k := 3
  blockEmission := 1000
  keys := [(0, 100), (1, 101)]
  stakeOf := fun h => if h = 100 then 30 else if h = 101 then 70 else 0
  weightsStore := [(0, [(1, 65535)]), (1, [(2, 65535)])]
  emissions := fun _ => 0

/-- Modelled from the spec (4.2 step 7), for comparison with the code: the
intended emission commit multiplies the normalized rank fractions by the
block emission budget before converting to unsigned integers. -/
def spec_emission_u64 (s : EpochState) : List Nat :=
  let stake_i64 := inplace_normalize_64 (build_stake s)
  let stake_i32 := vec_fixed64_to_fixed32 stake_i64
  let weights_i32 := get_weights_dense s.weightsStore s.n s.k
  let ranks_i32 := matmul weights_i32 stake_i32
  let emission_i62 := inplace_normalize_64 (vec_fixed32_to_fixed64 ranks_i32)
  vec_fixed64_to_u64 (emission_i62.map (fun x => x * s.blockEmission))

/-- C9: for every target at most 21845 the u16 triple does not overflow and
the interval check is exactly `counter < 3 * target`; for any u16 target above
that bound the multiplication overflows the 16-bit range. -/
theorem interval_limit_u16_overflow (target : Nat) :
    (target ≤ 21845 →
      target * 3 < 65536 ∧
      interval_limit_u16 target = 3 * target ∧
      ∀ counter, interval_check counter target = decide (counter < 3 * target)) ∧
    (21845 < target → target < 65536 → 65536 ≤ target * 3) := by
  constructor
  · intro h
    have h3 : target * 3 < 65536 := by omega
    refine ⟨h3, ?_, ?_⟩
    · simp only [interval_limit_u16, Nat.mod_eq_of_lt h3]
      omega
    · intro counter
      simp only [interval_check, interval_limit_u16, Nat.mod_eq_of_lt h3]
      have : target * 3 = 3 * target := by omega
      rw [this]
  · intro h _
    omega

/-- Witness for C9 at concrete inputs: target 2 gives limit 6, and the triple
of target 21846 overflows u16. -/
theorem interval_limit_u16_overflow_witness :
    interval_limit_u16 2 = 3 * 2 ∧ 65536 ≤ 21846 * 3 :=
  ⟨((interval_limit_u16_overflow 2).1 (by decide)).2.1,
    (interval_limit_u16_overflow 21846).2 (by decide) (by decide)⟩

theorem next_available_netuid_none (subnetExists : Nat → Bool) :
    ∀ fuel cur, (∀ j, cur < j → j ≤ 65535 → subnetExists j = true) →
      next_available_netuid subnetExists fuel cur = none := by
  intro fuel
  induction fuel with
  | zero => intro cur _; rfl
  | succ fuel ih =>
    intro cur h
    by_cases hc : 65535 < cur + 1
    · simp [next_available_netuid, hc]
    · have hcur : cur + 1 ≤ 65535 := by omega
      have hex : subnetExists (cur + 1) = true := h (cur + 1) (by omega) hcur
      simp only [next_available_netuid, if_neg hc, hex]
      simp only [Bool.true_eq_false, if_false]
      exact ih (cur + 1) (fun j hj hj' => h j (by omega) hj')

theorem next_available_netuid_finds (subnetExists : Nat → Bool) :
    ∀ fuel cur m, cur < m → m ≤ 65535 → subnetExists m = false →
      (∀ j, j < m → cur < j → subnetExists j = true) → m - cur ≤ fuel →
      next_available_netuid subnetExists fuel cur = some m := by
  intro fuel
  induction fuel with
  | zero => intro cur m h1 _ _ _ h5; omega
  | succ fuel ih =>
    intro cur m h1 h2 h3 h4 h5
    have hno : ¬ 65535 < cur + 1 := by omega
    by_cases hm : cur + 1 = m
    · subst hm
      simp [next_available_netuid, hno, h3]
    · have hex : subnetExists (cur + 1) = true := h4 (cur + 1) (by omega) (by omega)
      simp only [next_available_netuid, if_neg hno, hex]
      simp only [Bool.true_eq_false, if_false]
      exact ih (cur + 1) m (by omega) h2 h3 (fun j hj hj' => h4 j hj (by omega)) (by omega)

/-- C10: when some id in `1..=65535` is free, the netuid-selection loop of
`user_add_network` terminates and returns the smallest free id; when every id
in that range is taken, the u16 counter is incremented past `u16::MAX` and the
loop does not terminate normally (modelled as `none`). -/
theorem netuid_loop_termination (subnetExists : Nat → Bool) :
    (∀ m, 1 ≤ m → m ≤ 65535 → subnetExists m = false →
      (∀ j, j < m → 1 ≤ j → subnetExists j = true) →
      next_available_netuid subnetExists 65536 0 = some m) ∧
    ((∀ j, 1 ≤ j → j ≤ 65535 → subnetExists j = true) →
      next_available_netuid subnetExists 65536 0 = none) := by
  constructor
  · intro m h1 h2 h3 h4
    exact next_available_netuid_finds subnetExists 65536 0 m (by omega) h2 h3
      (fun j hj hj' => h4 j hj (by omega)) (by omega)
  · intro h
    exact next_available_netuid_none subnetExists 65536 0 (fun j hj hj' => h j (by omega) hj')

/-- Witness for C10: with only subnet 1 existing the loop returns 2 (the
smallest free id), and with every id of `1..=65535` existing it overflows. -/
theorem netuid_loop_termination_witness :
    next_available_netuid (fun n => decide (n = 1)) 65536 0 = some 2 ∧
    next_available_netuid (fun _ => true) 65536 0 = none :=
  ⟨(netuid_loop_termination (fun n => decide (n = 1))).1 2 (by decide) (by decide) (by decide)
      (by intro j hj hj'; interval_cases j; simp),
    (netuid_loop_termination (fun _ => true)).2 (fun j _ _ => rfl)⟩

theorem user_add_network_errors (coldkey : Nat) (s : NetState) (e : RootErr)
    (st : NetState) (h : user_add_network coldkey s = some (.error e, st)) :
    e = .TxRateLimitExceeded ∨ e = .CouldNotConvertToBalance ∨
      e = .NotEnoughBalanceToStake ∨ e = .BalanceWithdrawalError := by
  unfold user_add_network at h
  by_cases h1 : decide (1 ≤ s.currentBlock - s.networkLastBurnBlock) = false
  · rw [if_pos h1] at h
    simp only [Option.some_inj, Prod.mk.injEq, Except.error.injEq] at h
    exact Or.inl h.1.symm
  · rw [if_neg h1] at h
    by_cases h2 : s.canConvert = false
    · rw [if_pos h2] at h
      simp only [Option.some_inj, Prod.mk.injEq, Except.error.injEq] at h
      exact Or.inr (Or.inl h.1.symm)
    · rw [if_neg h2] at h
      by_cases h3 : decide (s.burnCost ≤ s.balance) = false
      · rw [if_pos h3] at h
        simp only [Option.some_inj, Prod.mk.injEq, Except.error.injEq] at h
        exact Or.inr (Or.inr (Or.inl h.1.symm))
      · rw [if_neg h3] at h
        by_cases hcap : s.totalNetworks < s.subnetLimit
        · rw [if_pos hcap] at h
          cases hloop : next_available_netuid (fun n => s.networks.contains n) 65536 0 with
          | none => rw [hloop] at h; simp at h
          | some nid =>
            rw [hloop] at h
            by_cases hwd : s.withdrawOk = false
            · simp only [Option.map_some', Option.some_bind, if_pos hwd,
                Option.some_inj, Prod.mk.injEq, Except.error.injEq] at h
              exact Or.inr (Or.inr (Or.inr h.1.symm))
            · simp only [Option.map_some', Option.some_bind, if_neg hwd] at h
              simp at h
        · rw [if_neg hcap] at h
          by_cases hwd : (remove_network s s.subnetToPrune).withdrawOk = false
          · simp only [Option.some_bind, if_pos hwd,
              Option.some_inj, Prod.mk.injEq, Except.error.injEq] at h
            exact Or.inr (Or.inr (Or.inr h.1.symm))
          · simp only [Option.some_bind, if_neg hwd] at h
            simp at h

/-- C2: every failing `user_add_network` request is a no-op on persisted
state: whenever the dispatched call returns an error, the committed state
equals the state before the call and the error is one of the four documented
ones; in particular, at capacity with a failing withdrawal the raw execution
has already removed the prune victim when it stops with
`BalanceWithdrawalError`, yet the committed state is still unchanged. -/
theorem user_add_network_error_no_op (coldkey : Nat) (s : NetState) :
    (∀ e s', run_add_network coldkey s = some (.error e, s') →
      s' = s ∧
      (e = .TxRateLimitExceeded ∨ e = .CouldNotConvertToBalance ∨
        e = .NotEnoughBalanceToStake ∨ e = .BalanceWithdrawalError)) ∧
    (1 ≤ s.currentBlock - s.networkLastBurnBlock → s.canConvert = true →
      s.burnCost ≤ s.balance → ¬ s.totalNetworks < s.subnetLimit →
      s.withdrawOk = false →
      user_add_network coldkey s =
        some (.error .BalanceWithdrawalError, remove_network s s.subnetToPrune) ∧
      run_add_network coldkey s = some (.error .BalanceWithdrawalError, s)) := by
  constructor
  · intro e s' h
    unfold run_add_network at h
    cases hu : user_add_network coldkey s with
    | none => rw [hu] at h; simp at h
    | some r =>
      rw [hu] at h
      simp only [Option.map_some', Option.some_inj] at h
      obtain ⟨e', st⟩ := r
      cases e' with
      | ok u => simp at h
      | error e'' =>
        simp only [Prod.mk.injEq, Except.error.injEq] at h
        refine ⟨h.2.symm, ?_⟩
        rw [← h.1]
        exact user_add_network_errors coldkey s e'' st hu
  · intro hrate hconv hbal hcap hwd
    have hraw : user_add_network coldkey s =
        some (.error .BalanceWithdrawalError, remove_network s s.subnetToPrune) := by
      unfold user_add_network
      rw [if_neg (by simp [hrate]), if_neg (by simp [hconv]), if_neg (by simp [hbal]),
        if_neg hcap]
      simp only [Option.some_bind]
      rw [if_pos (by simp [remove_network, hwd])]
    refine ⟨hraw, ?_⟩
    unfold run_add_network
    rw [hraw]
    rfl

/-- Witness for C2: at the concrete at-capacity state with a failing
withdrawal, the dispatched call errors with `BalanceWithdrawalError` and
commits no change. -/
theorem user_add_network_error_no_op_witness :
    run_add_network 7 netStateFullFail =
      some (.error .BalanceWithdrawalError, netStateFullFail) :=
  ((user_add_network_error_no_op 7 netStateFullFail).2 (by decide) (by decide)
    (by decide) (by decide) (by decide)).2

/-- C8: when the rate-limit and balance checks of `user_add_network` pass, a
below-cap call registers the new subnetwork under the smallest id at least 1
for which no subnetwork exists, while an at-capacity call removes the
externally chosen prune victim and registers the new subnetwork under exactly
the victim's id. -/
theorem user_add_network_netuid_selection (coldkey : Nat) (s : NetState)
    (hrate : 1 ≤ s.currentBlock - s.networkLastBurnBlock)
    (hconv : s.canConvert = true)
    (hbal : s.burnCost ≤ s.balance)
    (hwd : s.withdrawOk = true) :
    (∀ m, s.totalNetworks < s.subnetLimit →
      1 ≤ m → m ≤ 65535 → s.networks.contains m = false →
      (∀ j, j < m → 1 ≤ j → s.networks.contains j = true) →
      user_add_network coldkey s = some (.ok (), { s with
        balance := s.balance - s.burnCost
        lockedBalance := insertAssoc s.lockedBalance m s.burnCost
        networks := m :: s.networks
        totalNetworks := (s.totalNetworks + 1) % 65536
        networkLastRegistered := s.currentBlock
        registeredAt := insertAssoc s.registeredAt m s.currentBlock
        subnetOwner := insertAssoc s.subnetOwner m coldkey
        networkLastBurn := s.burnCost
        events := m :: s.events })) ∧
    (¬ s.totalNetworks < s.subnetLimit → s.networks.Nodup →
      user_add_network coldkey s = some (.ok (), { s with
        balance := s.balance - s.burnCost
        lockedBalance := insertAssoc s.lockedBalance s.subnetToPrune s.burnCost
        networks := s.subnetToPrune :: s.networks.erase s.subnetToPrune
        totalNetworks := (s.totalNetworks - 1 + 1) % 65536
        networkLastRegistered := s.currentBlock
        registeredAt := insertAssoc s.registeredAt s.subnetToPrune s.currentBlock
        subnetOwner := insertAssoc s.subnetOwner s.subnetToPrune coldkey
        networkLastBurn := s.burnCost
        events := s.subnetToPrune :: s.events })) := by
  have hr : ¬ decide (1 ≤ s.currentBlock - s.networkLastBurnBlock) = false := by
    simp [hrate]
  have hc : ¬ s.canConvert = false := by simp [hconv]
  have hb : ¬ decide (s.burnCost ≤ s.balance) = false := by simp [hbal]
  have hw : ¬ s.withdrawOk = false := by simp [hwd]
  constructor
  · intro m hcap h1 h2 h3 h4
    have hloop := (netuid_loop_termination (fun n => s.networks.contains n)).1 m h1 h2 h3 h4
    unfold user_add_network
    rw [if_neg hr, if_neg hc, if_neg hb, if_pos hcap, hloop]
    simp only [Option.map_some', Option.some_bind, if_neg hw]
    have h3' : m ∉ s.networks := by simpa using h3
    simp [init_new_network_with_params, h3']
  · intro hcap hnd
    unfold user_add_network
    rw [if_neg hr, if_neg hc, if_neg hb, if_neg hcap]
    have hwrem : ¬ (remove_network s s.subnetToPrune).withdrawOk = false := by
      simp [remove_network, hwd]
    have hmem : s.subnetToPrune ∉ s.networks.erase s.subnetToPrune := hnd.not_mem_erase
    simp only [Option.some_bind, if_neg hwrem]
    simp [init_new_network_with_params, remove_network, hmem]

/-- Witness for C8: at the concrete below-cap state the new subnetwork gets
netuid 2, the smallest free id. -/
theorem user_add_network_netuid_selection_witness :
    user_add_network 7 netStateBelowCap = some (.ok (), { netStateBelowCap with
      balance := 400
      lockedBalance := [(2, 100)]
      networks := [2, 0, 1]
      totalNetworks := 3
      networkLastRegistered := 10
      registeredAt := [(2, 10)]
      subnetOwner := [(2, 7)]
      networkLastBurn := 100
      events := [2] }) := by
  have h := (user_add_network_netuid_selection 7 netStateBelowCap (by decide) (by decide)
    (by decide) (by decide)).1 2 (by decide) (by decide) (by decide) (by decide)
    (by decide)
  simpa [netStateBelowCap, insertAssoc] using h

theorem has_duplicate_uids_iff (uids : List Nat) :
    has_duplicate_uids uids = true ↔ ¬ uids.Nodup := by
  induction uids with
  | nil => simp [has_duplicate_uids]
  | cons u rest ih =>
    simp only [has_duplicate_uids, Bool.or_eq_true, List.nodup_cons, ih]
    constructor
    · rintro (hc | hd)
      · intro hn; exact hn.1 (by simpa using hc)
      · intro hn; exact hd hn.2
    · intro hn
      by_cases hm : u ∈ rest
      · exact Or.inl (by simpa using hm)
      · exact Or.inr (fun hnd => hn ⟨hm, hnd⟩)

theorem contains_invalid_root_uids_iff (total : Nat) (uids : List Nat) :
    contains_invalid_root_uids total uids = true ↔
      ∃ uid ∈ uids, total < uid ∨ uid = 0 := by
  simp [contains_invalid_root_uids, get_root_netuid]

/-- C3: a uid list that passed the earlier `set_root_weights` checks is
rejected with `InvalidUid` exactly when some uid strictly exceeds the total
subnetwork count or equals the root netuid 0; equivalently
`contains_invalid_root_uids` answers true exactly then, so a uid equal to the
total subnetwork count passes (the documented off-by-one is preserved). -/
theorem set_root_weights_invalid_uid_iff (s : WeightsState) (hotkey : Nat)
    (uids values : List Nat)
    (hlen : uids.length = values.length)
    (hcount : uids.length ≤ s.totalNetworks)
    (hresolve : ∃ u, lookupAssoc s.uidsMap hotkey = some u ∧
      s.weightsRateLimit ≤ s.currentBlock - (lookupAssoc s.lastUpdate u).getD 0)
    (hdup : has_duplicate_uids uids = false) :
    (set_root_weights s hotkey uids values = .error .InvalidUid ↔
      ∃ uid ∈ uids, s.totalNetworks < uid ∨ uid = 0) ∧
    ((∀ uid ∈ uids, uid ≤ s.totalNetworks ∧ uid ≠ 0) →
      ∃ s', set_root_weights s hotkey uids values = .ok s') := by
  obtain ⟨u, hu, hrl⟩ := hresolve
  have h1 : uids_match_values uids values = true := by
    simp [uids_match_values, hlen]
  have h2 : decide (uids.length ≤ s.totalNetworks) = true := by simp [hcount]
  have h3 : is_hotkey_registered_on_network s hotkey = true := by
    simp [is_hotkey_registered_on_network, hu]
  have h5 : check_rate_limit s u = true := by simp [check_rate_limit, hrl]
  have hpipe : set_root_weights s hotkey uids values =
      (if contains_invalid_root_uids s.totalNetworks uids then .error .InvalidUid
       else .ok { s with
        weightsStore := insertAssoc s.weightsStore u
          (uids.zip (vec_u16_max_upscale_to_u16 values))
        lastUpdate := insertAssoc s.lastUpdate u s.currentBlock }) := by
    simp only [set_root_weights, get_uid_for_net_and_hotkey, h1, h2, h3, hu, h5, hdup,
      Bool.true_eq_false, Bool.false_eq_true, if_false, ite_false]
  constructor
  · rw [hpipe]
    by_cases hinv : contains_invalid_root_uids s.totalNetworks uids = true
    · simp only [if_pos hinv]
      simpa using (contains_invalid_root_uids_iff s.totalNetworks uids).1 hinv
    · simp only [if_neg hinv]
      constructor
      · intro h; exact absurd h (by simp)
      · intro hex
        exact absurd ((contains_invalid_root_uids_iff s.totalNetworks uids).2 hex) hinv
  · intro hok
    have hinv : ¬ contains_invalid_root_uids s.totalNetworks uids = true := by
      rw [contains_invalid_root_uids_iff]
      rintro ⟨uid, hmem, h | h⟩
      · exact absurd (hok uid hmem).1 (by omega)
      · exact (hok uid hmem).2 h
    rw [hpipe, if_neg hinv]
    exact ⟨_, rfl⟩

/-- Witness for C3: at the concrete state, the list `[2]` — a uid exactly
equal to the subnetwork count — is accepted, and `[3]` is rejected with
`InvalidUid`. -/
theorem set_root_weights_invalid_uid_iff_witness :
    (∃ s', set_root_weights weightsState0 5 [2] [7] = .ok s') ∧
    set_root_weights weightsState0 5 [3] [7] = .error .InvalidUid :=
  ⟨(set_root_weights_invalid_uid_iff weightsState0 5 [2] [7] (by decide) (by decide)
      ⟨0, by decide, by decide⟩ (by decide)).2 (by decide),
    (set_root_weights_invalid_uid_iff weightsState0 5 [3] [7] (by decide) (by decide)
      ⟨0, by decide, by decide⟩ (by decide)).1.mpr ⟨3, by decide, by decide⟩⟩

/-- C5: `set_root_weights` runs its checks in the fixed order length
equality, uid-count bound, hotkey registration, uid resolution, rate limit,
duplicate detection, uid validity: each error is returned exactly when its
check is the first in that order to fail, and a failing call leaves the
persisted state unchanged (no weight row and no last-update block written). -/
theorem set_root_weights_check_order (s : WeightsState) (hotkey : Nat)
    (uids values : List Nat) :
    (set_root_weights s hotkey uids values = .error .WeightVecNotEqualSize ↔
      uids.length ≠ values.length) ∧
    (set_root_weights s hotkey uids values = .error .TooManyUids ↔
      uids.length = values.length ∧ s.totalNetworks < uids.length) ∧
    (set_root_weights s hotkey uids values = .error .NotRegistered ↔
      uids.length = values.length ∧ uids.length ≤ s.totalNetworks ∧
      lookupAssoc s.uidsMap hotkey = none) ∧
    (set_root_weights s hotkey uids values = .error .SettingWeightsTooFast ↔
      uids.length = values.length ∧ uids.length ≤ s.totalNetworks ∧
      ∃ u, lookupAssoc s.uidsMap hotkey = some u ∧
        s.currentBlock - (lookupAssoc s.lastUpdate u).getD 0 < s.weightsRateLimit) ∧
    (set_root_weights s hotkey uids values = .error .DuplicateUids ↔
      uids.length = values.length ∧ uids.length ≤ s.totalNetworks ∧
      (∃ u, lookupAssoc s.uidsMap hotkey = some u ∧
        s.weightsRateLimit ≤ s.currentBlock - (lookupAssoc s.lastUpdate u).getD 0) ∧
      ¬ uids.Nodup) ∧
    (set_root_weights s hotkey uids values = .error .InvalidUid ↔
      uids.length = values.length ∧ uids.length ≤ s.totalNetworks ∧
      (∃ u, lookupAssoc s.uidsMap hotkey = some u ∧
        s.weightsRateLimit ≤ s.currentBlock - (lookupAssoc s.lastUpdate u).getD 0) ∧
      uids.Nodup ∧ ∃ uid ∈ uids, s.totalNetworks < uid ∨ uid = 0) ∧
    (∀ e, set_root_weights s hotkey uids values = .error e →
      run_set_root_weights s hotkey uids values = (.error e, s)) := by
  have hrun : ∀ e, set_root_weights s hotkey uids values = .error e →
      run_set_root_weights s hotkey uids values = (.error e, s) := by
    intro e he
    unfold run_set_root_weights
    rw [he]
  by_cases hl : uids.length = values.length
  case neg =>
    have hres : set_root_weights s hotkey uids values = .error .WeightVecNotEqualSize := by
      unfold set_root_weights
      rw [if_pos (by simp [uids_match_values, hl])]
    refine ⟨by simp [hres, hl], ?_, ?_, ?_, ?_, ?_, hrun⟩ <;> simp [hres, hl]
  case pos =>
  have h1 : uids_match_values uids values = true := by simp [uids_match_values, hl]
  by_cases hc : uids.length ≤ s.totalNetworks
  case neg =>
    have hres : set_root_weights s hotkey uids values = .error .TooManyUids := by
      unfold set_root_weights
      rw [if_neg (by simp [h1]), if_pos (by simp [hc])]
    have hc' : s.totalNetworks < uids.length := by omega
    have hcv : s.totalNetworks < values.length := by omega
    have hcle : ¬ values.length ≤ s.totalNetworks := by omega
    refine ⟨?_, ?_, ?_, ?_, ?_, ?_, hrun⟩ <;> simp [hres, hl, hc, hc', hcv, hcle]
  case pos =>
  have h2 : decide (uids.length ≤ s.totalNetworks) = true := by simp [hc]
  have hcv2 : values.length ≤ s.totalNetworks := by omega
  have hc2 : ¬ s.totalNetworks < uids.length := by omega
  have hc2v : ¬ s.totalNetworks < values.length := by omega
  rcases hu : lookupAssoc s.uidsMap hotkey with _ | u
  case none =>
    have hres : set_root_weights s hotkey uids values = .error .NotRegistered := by
      unfold set_root_weights
      rw [if_neg (by simp [h1]), if_neg (by simp [h2]),
        if_pos (by simp [is_hotkey_registered_on_network, hu])]
    refine ⟨?_, ?_, ?_, ?_, ?_, ?_, hrun⟩ <;>
      simp [hres, hl, hc, hcv2, hc2, hc2v, hu]
  case some =>
  have h3 : is_hotkey_registered_on_network s hotkey = true := by
    simp [is_hotkey_registered_on_network, hu]
  by_cases hrl : s.weightsRateLimit ≤ s.currentBlock - (lookupAssoc s.lastUpdate u).getD 0
  case neg =>
    have h5 : check_rate_limit s u = false := by simp [check_rate_limit, hrl]
    have hres : set_root_weights s hotkey uids values = .error .SettingWeightsTooFast := by
      simp only [set_root_weights, get_uid_for_net_and_hotkey, h1, h2, h3, hu, h5,
        Bool.true_eq_false, Bool.false_eq_true, if_false, ite_false, if_true, ite_true]
    have hrl' : s.currentBlock - (lookupAssoc s.lastUpdate u).getD 0 < s.weightsRateLimit := by
      omega
    refine ⟨?_, ?_, ?_, ?_, ?_, ?_, hrun⟩ <;>
      simp [hres, hl, hc, hcv2, hc2, hc2v, hu, hrl, hrl']
  case pos =>
  have h5 : check_rate_limit s u = true := by simp [check_rate_limit, hrl]
  by_cases hd : has_duplicate_uids uids = true
  case pos =>
    have hd' : ¬ uids.Nodup := (has_duplicate_uids_iff uids).1 hd
    have hres : set_root_weights s hotkey uids values = .error .DuplicateUids := by
      simp only [set_root_weights, get_uid_for_net_and_hotkey, h1, h2, h3, hu, h5, hd,
        Bool.true_eq_false, Bool.false_eq_true, if_false, ite_false, if_true, ite_true]
    refine ⟨?_, ?_, ?_, ?_, ?_, ?_, hrun⟩ <;>
      simp [hres, hl, hc, hcv2, hc2, hc2v, hu, hrl, hd']
  case neg =>
  have hd0 : has_duplicate_uids uids = false := by
    simpa using hd
  have hd' : uids.Nodup := by
    by_contra hn
    exact hd ((has_duplicate_uids_iff uids).2 hn)
  by_cases hinv : contains_invalid_root_uids s.totalNetworks uids = true
  case pos =>
    have hinv' : ∃ uid ∈ uids, s.totalNetworks < uid ∨ uid = 0 :=
      (contains_invalid_root_uids_iff s.totalNetworks uids).1 hinv
    have hres : set_root_weights s hotkey uids values = .error .InvalidUid := by
      simp only [set_root_weights, get_uid_for_net_and_hotkey, h1, h2, h3, hu, h5, hd0, hinv,
        Bool.true_eq_false, Bool.false_eq_true, if_false, ite_false, if_true, ite_true]
    refine ⟨?_, ?_, ?_, ?_, ?_, ?_, hrun⟩ <;>
      simp [hres, hl, hc, hcv2, hc2, hc2v, hu, hrl, hd', hinv']
  case neg =>
  have hinv0 : contains_invalid_root_uids s.totalNetworks uids = false := by
    simpa using hinv
  have hinv' : ¬ ∃ uid ∈ uids, s.totalNetworks < uid ∨ uid = 0 := by
    rw [← contains_invalid_root_uids_iff s.totalNetworks uids]
    simp [hinv0]
  have hres : set_root_weights s hotkey uids values = .ok { s with
      weightsStore := insertAssoc s.weightsStore u
        (uids.zip (vec_u16_max_upscale_to_u16 values))
      lastUpdate := insertAssoc s.lastUpdate u s.currentBlock } := by
    simp only [set_root_weights, get_uid_for_net_and_hotkey, h1, h2, h3, hu, h5, hd0, hinv0,
      Bool.true_eq_false, Bool.false_eq_true, if_false, ite_false, if_true, ite_true]
  have hrl2 : ¬ s.currentBlock - (lookupAssoc s.lastUpdate u).getD 0 < s.weightsRateLimit := by
    omega
  refine ⟨?_, ?_, ?_, ?_, ?_, ?_, hrun⟩ <;>
    simp [hres, hl, hc, hcv2, hc2, hc2v, hu, hrl, hrl2, hd', hinv']

/-- Witness for C5 at a concrete state: a duplicate list is rejected with
`DuplicateUids`, and the failing call leaves the persisted state unchanged. -/
theorem set_root_weights_check_order_witness :
    (set_root_weights weightsState0 5 [3, 3] [7, 7] = .error .DuplicateUids ↔
      ([3, 3] : List Nat).length = ([7, 7] : List Nat).length ∧
      ([3, 3] : List Nat).length ≤ weightsState0.totalNetworks ∧
      (∃ u, lookupAssoc weightsState0.uidsMap 5 = some u ∧
        weightsState0.weightsRateLimit ≤
          weightsState0.currentBlock - (lookupAssoc weightsState0.lastUpdate u).getD 0) ∧
      ¬ ([3, 3] : List Nat).Nodup) ∧
    run_set_root_weights weightsState0 5 [3, 3] [7, 7] =
      (.error .DuplicateUids, weightsState0) := by
  have h := set_root_weights_check_order weightsState0 5 [3, 3] [7, 7]
  refine ⟨h.2.2.2.2.1, h.2.2.2.2.2.2 .DuplicateUids ?_⟩
  exact h.2.2.2.2.1.mpr ⟨by decide, by decide, ⟨0, by decide, by decide⟩, by decide⟩

theorem nat_min_left_comm (a b c : Nat) :
    Nat.min a (Nat.min b c) = Nat.min b (Nat.min a c) := by
  simp only [Nat.min_def]
  split_ifs <;> omega

theorem minWith_init_le (stakeOf : Nat → Nat) :
    ∀ (keys : List (Nat × Nat)) (x a : Nat), x ≤ a →
      Nat.min x (minWith stakeOf keys a) = minWith stakeOf keys x := by
  intro keys
  induction keys with
  | nil => intro x a h; exact Nat.min_eq_left h
  | cons p rest ih =>
    intro x a h
    show Nat.min x (Nat.min (stakeOf p.2) (minWith stakeOf rest a)) =
      Nat.min (stakeOf p.2) (minWith stakeOf rest x)
    rw [← ih x a h, nat_min_left_comm]

theorem minWith_le_init (stakeOf : Nat → Nat) :
    ∀ (keys : List (Nat × Nat)) (a : Nat), minWith stakeOf keys a ≤ a := by
  intro keys
  induction keys with
  | nil => intro a; exact Nat.le_refl a
  | cons p rest ih =>
    intro a
    exact le_trans (Nat.min_le_right _ _) (ih a)

theorem minWith_le_elem (stakeOf : Nat → Nat) :
    ∀ (keys : List (Nat × Nat)) (a : Nat) (p : Nat × Nat), p ∈ keys →
      minWith stakeOf keys a ≤ stakeOf p.2 := by
  intro keys
  induction keys with
  | nil => intro a p h; cases h
  | cons q rest ih =>
    intro a p h
    rcases List.mem_cons.1 h with h | h
    · subst h; exact Nat.min_le_left _ _
    · exact le_trans (Nat.min_le_right _ _) (ih a p h)

theorem find_lowest_fold_fst (stakeOf : Nat → Nat) :
    ∀ (keys : List (Nat × Nat)) (a u : Nat),
      (keys.foldl (find_lowest_step stakeOf) (a, u)).1 = minWith stakeOf keys a := by
  intro keys
  induction keys with
  | nil => intro a u; rfl
  | cons p rest ih =>
    intro a u
    rw [List.foldl_cons]
    by_cases h : stakeOf p.2 < a
    · have hstep : find_lowest_step stakeOf (a, u) p = (stakeOf p.2, p.1) := by
        simp [find_lowest_step, h]
      rw [hstep, ih]
      show minWith stakeOf rest (stakeOf p.2) =
        Nat.min (stakeOf p.2) (minWith stakeOf rest a)
      rw [minWith_init_le stakeOf rest (stakeOf p.2) a (le_of_lt h)]
    · have hstep : find_lowest_step stakeOf (a, u) p = (a, u) := by
        simp [find_lowest_step, h]
      rw [hstep, ih]
      show minWith stakeOf rest a = Nat.min (stakeOf p.2) (minWith stakeOf rest a)
      exact (Nat.min_eq_right (le_trans (minWith_le_init stakeOf rest a) (not_lt.1 h))).symm

theorem find_lowest_fold_no_update (stakeOf : Nat → Nat) :
    ∀ (keys : List (Nat × Nat)) (a u : Nat),
      (∀ p ∈ keys, ¬ stakeOf p.2 < a) →
      keys.foldl (find_lowest_step stakeOf) (a, u) = (a, u) := by
  intro keys
  induction keys with
  | nil => intro a u _; rfl
  | cons p rest ih =>
    intro a u h
    rw [List.foldl_cons]
    have hstep : find_lowest_step stakeOf (a, u) p = (a, u) := by
      simp [find_lowest_step, h p (List.mem_cons_self p rest)]
    rw [hstep]
    exact ih a u (fun q hq => h q (List.mem_cons_of_mem p hq))

theorem find_lowest_fold_first_min (stakeOf : Nat → Nat) :
    ∀ (keys : List (Nat × Nat)) (a u : Nat), minWith stakeOf keys a < a →
      ∃ p, keys.find? (fun q => stakeOf q.2 == minWith stakeOf keys a) = some p ∧
        keys.foldl (find_lowest_step stakeOf) (a, u) = (minWith stakeOf keys a, p.1) := by
  intro keys
  induction keys with
  | nil =>
    intro a u h
    exact absurd h (lt_irrefl a)
  | cons p rest ih =>
    intro a u h
    have hmw : minWith stakeOf (p :: rest) a =
        Nat.min (stakeOf p.2) (minWith stakeOf rest a) := rfl
    by_cases hfp : stakeOf p.2 < a
    · have hm : minWith stakeOf (p :: rest) a = minWith stakeOf rest (stakeOf p.2) := by
        rw [hmw, minWith_init_le stakeOf rest (stakeOf p.2) a (le_of_lt hfp)]
      have hstep : find_lowest_step stakeOf (a, u) p = (stakeOf p.2, p.1) := by
        simp [find_lowest_step, hfp]
      by_cases h2 : minWith stakeOf rest (stakeOf p.2) < stakeOf p.2
      · obtain ⟨q, hfind, hfold⟩ := ih (stakeOf p.2) p.1 h2
        refine ⟨q, ?_, ?_⟩
        · rw [hm, List.find?_cons_of_neg]
          · exact hfind
          · simp only [beq_iff_eq]
            omega
        · rw [List.foldl_cons, hstep, hm]
          exact hfold
      · have heq : minWith stakeOf rest (stakeOf p.2) = stakeOf p.2 :=
          le_antisymm (minWith_le_init stakeOf rest (stakeOf p.2)) (not_lt.1 h2)
        have hm2 : minWith stakeOf (p :: rest) a = stakeOf p.2 := by rw [hm, heq]
        refine ⟨p, ?_, ?_⟩
        · rw [hm2, List.find?_cons_of_pos]
          simp
        · rw [List.foldl_cons, hstep]
          have hnu : ∀ q ∈ rest, ¬ stakeOf q.2 < stakeOf p.2 := by
            intro q hq
            have hle := minWith_le_elem stakeOf rest (stakeOf p.2) q hq
            omega
          rw [find_lowest_fold_no_update stakeOf rest _ p.1 hnu, hm2]
    · have hge : a ≤ stakeOf p.2 := not_lt.1 hfp
      have hm : minWith stakeOf (p :: rest) a = minWith stakeOf rest a :=
        Nat.min_eq_right (le_trans (minWith_le_init stakeOf rest a) hge)
      have hmr : minWith stakeOf rest a < a := by rw [← hm]; exact h
      obtain ⟨q, hfind, hfold⟩ := ih a u hmr
      refine ⟨q, ?_, ?_⟩
      · rw [hm, List.find?_cons_of_neg]
        · exact hfind
        · simp only [beq_iff_eq]
          omega
      · have hstep : find_lowest_step stakeOf (a, u) p = (a, u) := by
          simp [find_lowest_step, hfp]
        rw [List.foldl_cons, hstep, hm]
        exact hfold

/-- C6: with the root network full and the earlier `do_root_register` checks
passing, a hotkey whose total stake does not strictly exceed the minimum
stake among the occupied slots is rejected with `StakeTooLowForRoot`; with
strictly higher stake, exactly the first slot in scan order holding that
minimum stake has its hotkey replaced and its registration block refreshed,
every other slot staying unchanged. -/
theorem do_root_register_full_replacement (s : RegState) (hotkey : Nat)
    (hex : s.rootExists = true)
    (hblk : s.regsThisBlock < s.maxRegsPerBlock)
    (hint : interval_check s.regsThisInterval s.targetRegsPerInterval = true)
    (hnew : s.keys.any (fun p => p.2 == hotkey) = false)
    (hmax : s.maxAllowedUids ≠ 0)
    (hfull : s.keys.length = s.maxAllowedUids)
    (hhk : s.stakeOf hotkey ≤ u64MAX) :
    (s.stakeOf hotkey ≤ minStake s.stakeOf s.keys →
      do_root_register s hotkey = .error .StakeTooLowForRoot) ∧
    (minStake s.stakeOf s.keys < s.stakeOf hotkey →
      ∃ p, s.keys.find? (fun q => s.stakeOf q.2 == minStake s.stakeOf s.keys) = some p ∧
        do_root_register s hotkey = .ok { s with
          keys := s.keys.map (fun q => if q.1 = p.1 then (q.1, hotkey) else q)
          blockAtRegistration := insertAssoc s.blockAtRegistration p.1 s.currentBlock
          regsThisInterval := (s.regsThisInterval + 1) % 65536
          regsThisBlock := (s.regsThisBlock + 1) % 65536 }) := by
  have h0 : ¬ s.rootExists = false := by simp [hex]
  have hb : ¬ decide (s.regsThisBlock < s.maxRegsPerBlock) = false := by simp [hblk]
  have hi : ¬ interval_check s.regsThisInterval s.targetRegsPerInterval = false := by
    simp [hint]
  have ha : ¬ s.keys.any (fun p => p.2 == hotkey) = true := by simp [hnew]
  have hfull' : ¬ s.keys.length < s.maxAllowedUids := by omega
  have hfst : (find_lowest s.stakeOf s.keys).1 = minStake s.stakeOf s.keys :=
    find_lowest_fold_fst s.stakeOf s.keys u64MAX 0
  constructor
  · intro hle
    unfold do_root_register
    rw [if_neg h0, if_neg hb, if_neg hi, if_neg ha, if_neg hmax, if_neg hfull']
    rw [if_pos (by rw [hfst]; simp; omega)]
    rfl
  · intro hlt
    have hmlt : minWith s.stakeOf s.keys u64MAX < u64MAX := lt_of_lt_of_le hlt hhk
    obtain ⟨p, hfind, hfold⟩ := find_lowest_fold_first_min s.stakeOf s.keys u64MAX 0 hmlt
    refine ⟨p, hfind, ?_⟩
    unfold do_root_register
    rw [if_neg h0, if_neg hb, if_neg hi, if_neg ha, if_neg hmax, if_neg hfull']
    rw [if_neg (by rw [hfst]; simp [hlt])]
    have hfl : find_lowest s.stakeOf s.keys = (minStake s.stakeOf s.keys, p.1) := hfold
    rw [hfl]
    rfl

/-- Witness for C6: hotkey 99 with stake 30 beats the minimum 20 and replaces
exactly slot 1 (the first of the two stake-20 slots in scan order). -/
theorem do_root_register_full_replacement_witness :
    ∃ p, regStateFull.keys.find?
        (fun q => regStateFull.stakeOf q.2 == minStake regStateFull.stakeOf regStateFull.keys) =
        some p ∧
      do_root_register regStateFull 99 = .ok { regStateFull with
        keys := regStateFull.keys.map (fun q => if q.1 = p.1 then (q.1, 99) else q)
        blockAtRegistration := insertAssoc regStateFull.blockAtRegistration p.1
          regStateFull.currentBlock
        regsThisInterval := (regStateFull.regsThisInterval + 1) % 65536
        regsThisBlock := (regStateFull.regsThisBlock + 1) % 65536 } :=
  (do_root_register_full_replacement regStateFull 99 (by decide) (by decide) (by decide)
    (by decide) (by decide) (by decide) (by decide)).2 (by decide)

theorem rowLastWrite_elim (j : Nat) :
    ∀ (pairs : List (Nat × Nat)) (acc : Option Nat),
      rowLastWrite pairs j acc = (rowLastWrite pairs j none).elim acc some := by
  intro pairs
  induction pairs with
  | nil => intro acc; rfl
  | cons pr rest ih =>
    intro acc
    show rowLastWrite rest j (if pr.1 = j then some pr.2 else acc) =
      (rowLastWrite rest j (if pr.1 = j then some pr.2 else none)).elim acc some
    by_cases hj : pr.1 = j
    · rw [if_pos hj, if_pos hj, ih (some pr.2)]
      cases hr : rowLastWrite rest j none <;> simp [Option.elim]
    · rw [if_neg hj, if_neg hj]
      exact ih acc

theorem lastWrite_elim (i j : Nat) :
    ∀ (store : List (Nat × List (Nat × Nat))) (acc : Option Nat),
      lastWrite store i j acc = (lastWrite store i j none).elim acc some := by
  intro store
  induction store with
  | nil => intro acc; rfl
  | cons row rest ih =>
    intro acc
    show lastWrite rest i j (if row.1 = i then rowLastWrite row.2 j acc else acc) =
      (lastWrite rest i j (if row.1 = i then rowLastWrite row.2 j none else none)).elim acc some
    by_cases hri : row.1 = i
    · rw [if_pos hri, if_pos hri, rowLastWrite_elim j row.2 acc]
      cases hr : rowLastWrite row.2 j none with
      | none => simpa [Option.elim] using ih acc
      | some v =>
        simp only [Option.elim]
        rw [ih (some v)]
        cases hl : lastWrite rest i j none <;> simp [Option.elim]
    · rw [if_neg hri, if_neg hri]
      exact ih acc

theorem setMat_some (m : List (List Nat)) (n k i j v : Nat)
    (hd : dims m n k) (hi : i < n) (hj : j < k) :
    ∃ m', setMat m i j v = some m' ∧ dims m' n k ∧
      ∀ i' j', entry m' i' j' =
        if i' = i ∧ j' = j then v else entry m i' j' := by
  obtain ⟨hlen, hrows⟩ := hd
  have hi' : i < m.length := by omega
  have hrow : m[i]? = some m[i] := List.getElem?_eq_getElem hi'
  have hmem : m[i] ∈ m := List.getElem_mem hi'
  have hrl : m[i].length = k := hrows _ hmem
  refine ⟨m.set i (m[i].set j v), ?_, ⟨?_, ?_⟩, ?_⟩
  · simp only [setMat, hrow]
    rw [if_pos (by omega)]
  · rw [List.length_set]; exact hlen
  · intro row hmemr
    rcases List.mem_or_eq_of_mem_set hmemr with h | h
    · exact hrows row h
    · rw [h, List.length_set]; exact hrl
  · intro i' j'
    by_cases hii : i' = i
    · subst hii
      have he : (m.set i' (m[i'].set j v))[i']? = some (m[i'].set j v) :=
        List.getElem?_set_self hi'
      by_cases hjj : j' = j
      · subst hjj
        have hj2 : j' < (m[i']).length := by omega
        simp [entry, List.getD_eq_getElem?_getD, he, List.getElem?_set_self hj2]
      · have hne : j ≠ j' := fun h => hjj h.symm
        simp [entry, List.getD_eq_getElem?_getD, he, List.getElem?_set_ne hne, hjj, hrow]
    · have he : (m.set i (m[i].set j v))[i']? = m[i']? :=
        List.getElem?_set_ne (fun h => hii h.symm)
      simp only [entry, List.getD_eq_getElem?_getD, he, hii, false_and, if_false]

theorem fillRow_some (n k i : Nat) (hi : i < n) :
    ∀ (pairs : List (Nat × Nat)) (m : List (List Nat)), dims m n k →
      (∀ pr ∈ pairs, pr.1 < k) →
      ∃ m', fillRow m i pairs = some m' ∧ dims m' n k ∧
        (∀ j', entry m' i j' =
          (rowLastWrite pairs j' none).elim (entry m i j') (fun w => fp32_from_num w)) ∧
        (∀ i' j', i' ≠ i → entry m' i' j' = entry m i' j') := by
  intro pairs
  induction pairs with
  | nil =>
    intro m hd _
    exact ⟨m, rfl, hd, fun j' => rfl, fun i' j' _ => rfl⟩
  | cons pr rest ih =>
    intro m hd hb
    obtain ⟨m1, hset, hd1, hent1⟩ :=
      setMat_some m n k i pr.1 (fp32_from_num pr.2) hd hi (hb pr (List.mem_cons_self pr rest))
    have hfill : fillRow m i (pr :: rest) = fillRow m1 i rest := by
      simp only [fillRow, List.foldl_cons, Option.some_bind, hset]
    obtain ⟨m', hres, hd', hent', hother'⟩ :=
      ih m1 hd1 (fun q hq => hb q (List.mem_cons_of_mem pr hq))
    refine ⟨m', by rw [hfill]; exact hres, hd', ?_, ?_⟩
    · intro j'
      show entry m' i j' =
        (rowLastWrite rest j' (if pr.1 = j' then some pr.2 else none)).elim
          (entry m i j') (fun w => fp32_from_num w)
      by_cases hjj : pr.1 = j'
      · rw [if_pos hjj, rowLastWrite_elim j' rest (some pr.2)]
        rw [hent' j']
        have hm1 : entry m1 i j' = fp32_from_num pr.2 := by
          rw [hent1 i j', if_pos ⟨rfl, hjj.symm⟩]
        cases hr : rowLastWrite rest j' none <;> simp [Option.elim, hm1]
      · rw [if_neg hjj]
        rw [hent' j']
        have hm1 : entry m1 i j' = entry m i j' := by
          rw [hent1 i j', if_neg (by intro h; exact hjj h.2.symm)]
        rw [hm1]
    · intro i' j' hne
      rw [hother' i' j' hne, hent1 i' j', if_neg (by intro h; exact hne h.1)]

theorem get_root_weights_fold (n k : Nat) :
    ∀ (store : List (Nat × List (Nat × Nat))) (m : List (List Nat)), dims m n k →
      (∀ row ∈ store, row.1 < n ∧ ∀ pr ∈ row.2, pr.1 < k) →
      ∃ M, store.foldl (fun acc row => acc.bind (fun mm => fillRow mm row.1 row.2))
          (some m) = some M ∧ dims M n k ∧
        ∀ i j, entry M i j =
          (lastWrite store i j none).elim (entry m i j) (fun w => fp32_from_num w) := by
  intro store
  induction store with
  | nil =>
    intro m hd _
    exact ⟨m, rfl, hd, fun i j => rfl⟩
  | cons row rest ih =>
    intro m hd hb
    obtain ⟨hrn, hrk⟩ := hb row (List.mem_cons_self row rest)
    obtain ⟨m1, hfill, hd1, hent1, hother1⟩ := fillRow_some n k row.1 hrn row.2 m hd hrk
    have hstep : (row :: rest).foldl
        (fun acc r => acc.bind (fun mm => fillRow mm r.1 r.2)) (some m) =
        rest.foldl (fun acc r => acc.bind (fun mm => fillRow mm r.1 r.2)) (some m1) := by
      simp only [List.foldl_cons, Option.some_bind, hfill]
    obtain ⟨M, hres, hdM, hentM⟩ :=
      ih m1 hd1 (fun q hq => hb q (List.mem_cons_of_mem row hq))
    refine ⟨M, by rw [hstep]; exact hres, hdM, ?_⟩
    intro i j
    show entry M i j =
      (lastWrite rest i j (if row.1 = i then rowLastWrite row.2 j none else none)).elim
        (entry m i j) (fun w => fp32_from_num w)
    by_cases hri : row.1 = i
    · rw [if_pos hri, lastWrite_elim i j rest (rowLastWrite row.2 j none)]
      rw [hentM i j]
      have hm1 : entry m1 i j =
          (rowLastWrite row.2 j none).elim (entry m i j) (fun w => fp32_from_num w) := by
        rw [← hri] at *
        exact hent1 j
      cases hl : lastWrite rest i j none <;>
        cases hr : rowLastWrite row.2 j none <;>
        simp_all [Option.elim]
    · rw [if_neg hri, hentM i j, hother1 i j (fun h => hri h.symm)]

/-- C4: whenever every stored entry's slot index is below the root size `n`
and every target below the subnet count `k`, `get_root_weights` returns
(without panic) the `n` by `k` matrix holding the stored magnitudes (0 where
nothing was stored); and the out-of-bounds panic is reachable, because
`set_root_weights` accepts a target uid equal to the subnetwork count, whose
stored row then indexes past the matrix. -/
theorem get_root_weights_safe :
    (∀ n k store, (∀ row ∈ store, row.1 < n ∧ ∀ pr ∈ row.2, pr.1 < k) →
      ∃ M, get_root_weights n k store = some M ∧ M.length = n ∧
        (∀ row ∈ M, row.length = k) ∧
        ∀ i j, i < n → j < k →
          entry M i j = fp32_from_num (storedWeight store i j)) ∧
    (∃ s', set_root_weights weightsStateK1 5 [1] [7] = .ok s' ∧
      s'.weightsStore = [(0, [(1, 65535)])] ∧
      get_root_weights 1 1 s'.weightsStore = none) := by
  constructor
  · intro n k store hb
    have hd0 : dims (List.replicate n (List.replicate k (fp32_from_num 0))) n k := by
      constructor
      · exact List.length_replicate n _
      · intro row hrow
        rw [List.eq_of_mem_replicate hrow]
        exact List.length_replicate k _
    obtain ⟨M, hres, ⟨hlen, hrows⟩, hent⟩ := get_root_weights_fold n k store _ hd0 hb
    refine ⟨M, hres, hlen, hrows, ?_⟩
    intro i j hi hj
    rw [hent i j]
    have hinit : entry (List.replicate n (List.replicate k (fp32_from_num 0))) i j =
        fp32_from_num 0 := by
      simp only [entry, List.getD_eq_getElem?_getD, List.getElem?_replicate_of_lt hi,
        Option.getD_some, List.getElem?_replicate_of_lt hj]
    rw [hinit]
    unfold storedWeight
    cases hl : lastWrite store i j none <;> simp [Option.elim]
  · refine ⟨_, rfl, rfl, rfl⟩

/-- Witness for C4: a concrete in-bounds store fills a 2 by 2 matrix with the
stored magnitude at entry `(0, 1)` and zeros elsewhere. -/
theorem get_root_weights_safe_witness :
    ∃ M, get_root_weights 2 2 [(0, [(1, 3)])] = some M ∧ M.length = 2 ∧
      (∀ row ∈ M, row.length = 2) ∧
      ∀ i j, i < 2 → j < 2 →
        entry M i j = fp32_from_num (storedWeight [(0, [(1, 3)])] i j) :=
  get_root_weights_safe.1 2 2 [(0, [(1, 3)])] (by decide)

/-- C1: at the spec's own example (stakes `[30, 70]`, slot 0 fully weighting
subnet 1, slot 1 fully weighting subnet 2, budget 1000) the code commits
emission 0 to both subnets instead of approximately 300 and 700: the
normalized rank fractions are truncated to `u64` without ever being
multiplied by the block emission budget, which `root_epoch` fetches (line
157) but never uses — scaling the same fractions by the budget as the spec
prescribes would commit `[0, 299, 700]`. -/
theorem root_epoch_budget_never_applied :
    (root_epoch exampleEpochState).emissions 1 = 0 ∧
    (root_epoch exampleEpochState).emissions 2 = 0 ∧
    spec_emission_u64 exampleEpochState = [0, 299, 700] ∧
    exampleEpochState.blockEmission = 1000 ∧
    exampleEpochState.blocksUntilNextEpoch = 0 := by
  refine ⟨?_, ?_, ?_, rfl, rfl⟩ <;> decide

/-- C7: at the same example the committed emissions over all `k = 3` netuids
sum to 0, while the block emission budget is 1000 — the shortfall `1000`
exceeds the claimed bound of `k` units, so emission conservation fails on the
code (same root cause as the unused budget). -/
theorem root_epoch_conservation_fails :
    ((List.range exampleEpochState.k).map (root_epoch exampleEpochState).emissions).sum
      = 0 ∧
    exampleEpochState.blockEmission = 1000 ∧
    exampleEpochState.k = 3 := by
  refine ⟨?_, rfl, rfl⟩
  decide

end Subtensor
